import Mathlib

/-!
# Shallow embedding of `CronManager` (bun-cron-manager, src/cron-manager.ts)

This file embeds the data model (`types.ts`) and the operations of the
`CronManager` class into Lean, and settles the specification's claims about
them.  JavaScript `Map<string, V>` objects are modelled as insertion-ordered
association lists (`Map.set` on an existing key keeps its position, on a new
key appends; `Map.keys()` iterates in insertion order).  `Date` values are
modelled as natural-number millisecond timestamps.  Optional TypeScript
fields (`endTime?`, `duration?`, ...) become `Option`.
-/

namespace CronMgr

/-- Lookup in an insertion-ordered association list (`Map.get`). -/
def alGet (m : List (String × α)) (k : String) : Option α :=
  (m.find? (fun p => p.1 == k)).map (·.2)

/-- Key-membership test (`Map.has`). -/
def alHas (m : List (String × α)) (k : String) : Bool :=
  m.any (fun p => p.1 == k)

/-- `Map.set`: replace the value in place when the key exists, else append. -/
def alSet (m : List (String × α)) (k : String) (v : α) : List (String × α) :=
  if alHas m k then m.map (fun p => if p.1 == k then (k, v) else p)
  else m ++ [(k, v)]

/-- `Map.delete`: remove all entries for the key. -/
def alDelete (m : List (String × α)) (k : String) : List (String × α) :=
  m.filter (fun p => !(p.1 == k))

/-- `Map.keys()` in insertion order. -/
def alKeys (m : List (String × α)) : List String :=
  m.map (·.1)

theorem find?_key_eq_none (m : List (String × α)) (k : String)
    (h : alHas m k = false) : m.find? (fun p => p.1 == k) = none := by
  unfold alHas at h
  induction m with
  | nil => rfl
  | cons p t ih =>
    simp only [List.any_cons, Bool.or_eq_false_iff] at h
    rw [List.find?_cons_of_neg _ (by simp [h.1])]
    exact ih h.2

theorem alGet_of_alHas_eq_false (m : List (String × α)) (k : String)
    (h : alHas m k = false) : alGet m k = none := by
  unfold alGet
  rw [find?_key_eq_none m k h]
  rfl

theorem find?_key_overwrite (m : List (String × α)) (k : String) (v : α)
    (h : alHas m k = true) :
    (m.map (fun p => if p.1 == k then (k, v) else p)).find? (fun p => p.1 == k)
      = some (k, v) := by
  unfold alHas at h
  induction m with
  | nil => simp at h
  | cons p t ih =>
    simp only [List.any_cons, Bool.or_eq_true] at h
    by_cases hp : (p.1 == k) = true
    · simp only [List.map_cons, if_pos hp]
      rw [List.find?_cons_of_pos _ (by simp)]
    · simp only [List.map_cons, if_neg hp]
      rw [List.find?_cons_of_neg _ (by simpa using hp)]
      exact ih (h.resolve_left hp)

theorem alGet_alSet_self (m : List (String × α)) (k : String) (v : α) :
    alGet (alSet m k v) k = some v := by
  unfold alGet alSet
  split
  · rename_i h
    rw [find?_key_overwrite m k v h]
    rfl
  · rename_i h
    rw [List.find?_append, find?_key_eq_none m k (by simpa using h)]
    simp [List.find?]

theorem find?_key_overwrite_ne (m : List (String × α)) (k k' : String) (v : α)
    (hkk : (k == k') = false) :
    (m.map (fun p => if p.1 == k then (k, v) else p)).find? (fun p => p.1 == k')
      = m.find? (fun p => p.1 == k') := by
  induction m with
  | nil => rfl
  | cons p t ih =>
    by_cases hp : (p.1 == k) = true
    · have hp' : (p.1 == k') = false := by
        have h1 : p.1 = k := by simpa using hp
        simpa [h1] using hkk
      simp only [List.map_cons, if_pos hp]
      rw [List.find?_cons_of_neg _ (by simp [hkk]),
          List.find?_cons_of_neg _ (by simp [hp'])]
      exact ih
    · simp only [List.map_cons, if_neg hp]
      cases hpk' : (p.1 == k') with
      | true =>
        rw [List.find?_cons_of_pos _ (by simpa using hpk'),
            List.find?_cons_of_pos _ (by simpa using hpk')]
      | false =>
        rw [List.find?_cons_of_neg _ (by simp [hpk']),
            List.find?_cons_of_neg _ (by simp [hpk'])]
        exact ih

theorem alGet_alSet_ne (m : List (String × α)) (k k' : String) (v : α)
    (h : (k == k') = false) : alGet (alSet m k v) k' = alGet m k' := by
  unfold alGet alSet
  split
  · rw [find?_key_overwrite_ne m k k' v h]
  · rw [List.find?_append]
    have hsingle : List.find? (fun p => p.1 == k') [(k, v)] = none := by
      simp [List.find?, h]
    rw [hsingle]
    cases List.find? (fun p => p.1 == k') m <;> rfl

theorem alGet_alDelete_self (m : List (String × α)) (k : String) :
    alGet (alDelete m k) k = none := by
  unfold alGet alDelete
  induction m with
  | nil => rfl
  | cons p t ih =>
    by_cases hp : (p.1 == k) = true
    · rw [List.filter_cons, if_neg (by simp [hp])]
      exact ih
    · rw [List.filter_cons, if_pos (by simp [hp])]
      rw [List.find?_cons_of_neg _ (by simp [hp])]
      exact ih

/-- `JobStatus` from `types.ts`: `"running" | "paused" | "stopped" | "idle"`. -/
inductive JobStatus where
  | running
  | paused
  | stopped
  | idle
deriving DecidableEq, Repr

/-- `JobExecution` from `types.ts`.  `Date`s are millisecond timestamps;
the optional `output` field is never written by `cron-manager.ts` and is
omitted. -/
structure JobExecution where
  jobName : String
  startTime : Nat
  endTime : Option Nat
  duration : Option Nat
  success : Bool
  error : Option String
deriving DecidableEq, Repr

/-- `JobConfig` from `types.ts`.  The `handler` (arbitrary user code) and the
croner `options` passthrough are not part of the state the claims quantify
over; handler behaviour is supplied per run as a `HandlerOutcome` below. -/
structure JobConfig where
  name : String
  description : String
  pattern : String
  timezone : Option String
  enabled : Option Bool
deriving DecidableEq, Repr

/-- Modelled from the spec: the croner `Cron` job runtime is an external
dependency (the `croner` package) whose source is not part of this
repository.  Its observable surface used by `cron-manager.ts`
(`isStopped`, `isRunning`, `isBusy`, `pause`, `resume`, `stop`, `trigger`,
`nextRun`, `previousRun`, `currentRun`) is modelled after spec §4.2:
states Stopped / Paused / Idle / Running, where Running is Idle with the
busy flag set; a freshly constructed job is scheduled (not paused, not
stopped) and not busy. -/
structure Cron where
  pausedFlag : Bool
  stoppedFlag : Bool
  busyFlag : Bool
  nextRunAt : Option Nat
  previousRunAt : Option Nat
  currentRunAt : Option Nat
deriving DecidableEq, Repr

/-- `new Cron(pattern, options, fn)`: starts scheduled immediately. -/
def Cron.new (next : Option Nat) : Cron :=
  { pausedFlag := false, stoppedFlag := false, busyFlag := false
    nextRunAt := next, previousRunAt := none, currentRunAt := none }

def Cron.isStopped (c : Cron) : Bool := c.stoppedFlag

/-- Modelled from the spec: a job "is running" (scheduled) when it is
neither stopped nor paused. -/
def Cron.isRunning (c : Cron) : Bool := !c.stoppedFlag && !c.pausedFlag

def Cron.isBusy (c : Cron) : Bool := c.busyFlag

/-- Modelled from the spec §4.2: `Idle/Running → Paused` on explicit pause. -/
def Cron.pauseJob (c : Cron) : Cron × Bool :=
  ({ c with pausedFlag := true }, !c.stoppedFlag)

/-- Modelled from the spec §4.2/§4.4: `Paused → Idle` on explicit resume;
resuming a job that is not paused (or that is stopped) is inapplicable and
reports `false`. -/
def Cron.resumeJob (c : Cron) : Cron × Bool :=
  if c.pausedFlag && !c.stoppedFlag then ({ c with pausedFlag := false }, true)
  else (c, false)

/-- Modelled from the spec §4.2: `any → Stopped`, irreversible. -/
def Cron.stopJob (c : Cron) : Cron :=
  { c with stoppedFlag := true }

/-- Per-job statistics block of `JobInfo` (`types.ts`). -/
structure JobStats where
  totalRuns : Nat
  successfulRuns : Nat
  failedRuns : Nat
  averageDuration : Nat
deriving DecidableEq, Repr

/-- `JobInfo` from `types.ts`. -/
structure JobInfo where
  name : String
  description : String
  pattern : String
  timezone : Option String
  enabled : Bool
  status : JobStatus
  nextRun : Option Nat
  previousRun : Option Nat
  currentRun : Option Nat
  isBusy : Bool
  executions : List JobExecution
  stats : JobStats
deriving DecidableEq, Repr

/-- `ManagerStats` from `types.ts`. -/
structure ManagerStats where
  totalJobs : Nat
  runningJobs : Nat
  pausedJobs : Nat
  stoppedJobs : Nat
  totalExecutions : Nat
  successfulExecutions : Nat
  failedExecutions : Nat
deriving DecidableEq, Repr

/-- The private fields of the `CronManager` class. -/
structure CronManager where
  jobs : List (String × Cron)
  configs : List (String × JobConfig)
  executions : List (String × List JobExecution)
  maxExecutionLogs : Nat
deriving Repr

/-- `new CronManager(maxExecutionLogs = 100)`; the default argument 100 is
written out by callers. -/
def CronManager.new (maxExecutionLogs : Nat) : CronManager :=
  { jobs := [], configs := [], executions := [], maxExecutionLogs }

/-- `createJob(config)`: builds the croner job (which starts at once) and
stores it in the `jobs` map.  The execution wrapper passed to croner is
modelled separately as `executionWrapper`. -/
def createJob (m : CronManager) (config : JobConfig) (next : Option Nat) :
    CronManager :=
  { m with jobs := alSet m.jobs config.name (Cron.new next) }

/-- `register(config)`: throws when the *jobs map* already holds the name;
otherwise stores the config, creates an empty history, and creates the
runtime when `config.enabled !== false`.  The TypeScript method throws
before performing any mutation, so the error branch carries no state. -/
def register (m : CronManager) (config : JobConfig) (next : Option Nat) :
    Except String CronManager :=
  if alHas m.jobs config.name then
    Except.error ("Job with name " ++ config.name ++ " already exists")
  else
    let m1 : CronManager :=
      { m with configs := alSet m.configs config.name config
               executions := alSet m.executions config.name [] }
    if config.enabled != some false then Except.ok (createJob m1 config next)
    else Except.ok m1

/-- `recordExecution(jobName, success, error?, startTime?, endTime?, duration?)`:
prepends the new record and truncates the list to `maxExecutionLogs`.
`now` stands for the `new Date()` fallback used when `startTime` is absent. -/
def recordExecution (m : CronManager) (now : Nat) (jobName : String)
    (success : Bool) (error : Option String)
    (startTime endTime duration : Option Nat) : CronManager :=
  let executions := (alGet m.executions jobName).getD []
  let execution : JobExecution :=
    { jobName, startTime := startTime.getD now, endTime, duration, success, error }
  let executions := execution :: executions
  let executions :=
    if executions.length > m.maxExecutionLogs then executions.take m.maxExecutionLogs
    else executions
  { m with executions := alSet m.executions jobName executions }

/-- Outcome of one invocation of a job's handler. -/
inductive HandlerOutcome where
  | ok
  | failed (msg : String)
deriving DecidableEq, Repr

/-- The async callback `cron-manager.ts` passes to `new Cron`: it captures
`startTime`, awaits the handler, and on either completion path makes a
single `recordExecution` call carrying start, end, duration, and the
outcome.  `endTime` is the wall clock at completion. -/
def executionWrapper (m : CronManager) (jobName : String)
    (startTime endTime : Nat) (outcome : HandlerOutcome) : CronManager :=
  match outcome with
  | HandlerOutcome.ok =>
      recordExecution m startTime jobName true none
        (some startTime) (some endTime) (some (endTime - startTime))
  | HandlerOutcome.failed msg =>
      recordExecution m startTime jobName false (some msg)
        (some startTime) (some endTime) (some (endTime - startTime))

/-- `getJobStatus(job)` (private): `"stopped"` when the runtime is absent or
stopped, `"paused"` when not running, `"running"` when busy, else `"idle"`. -/
def getJobStatus (job : Option Cron) : JobStatus :=
  match job with
  | none => JobStatus.stopped
  | some j =>
    if j.isStopped then JobStatus.stopped
    else if !j.isRunning then JobStatus.paused
    else if j.isBusy then JobStatus.running
    else JobStatus.idle

/-- `Math.round(a / b)` for natural `a` and positive natural `b`:
`⌊a/b + 1/2⌋ = (2a + b) / (2b)` in integer arithmetic. -/
def jsRoundDiv (a b : Nat) : Nat := (2 * a + b) / (2 * b)

/-- `getJob(name)`: `null` when the name has no config; otherwise a snapshot
whose `executions` field is `slice(0, 10)` of the history while the stats
are computed over the whole retained history. -/
def getJob (m : CronManager) (name : String) : Option JobInfo :=
  match alGet m.configs name with
  | none => none
  | some config =>
    let job := alGet m.jobs name
    let executions := (alGet m.executions name).getD []
    let successfulRuns := (executions.filter (fun e => e.success)).length
    let failedRuns := (executions.filter (fun e => !e.success)).length
    let totalDuration := (executions.map (fun e => e.duration.getD 0)).sum
    let averageDuration :=
      if executions.length > 0 then jsRoundDiv totalDuration executions.length else 0
    some
      { name := config.name
        description := config.description
        pattern := config.pattern
        timezone := config.timezone
        enabled := config.enabled != some false
        status := getJobStatus job
        nextRun := job.bind (·.nextRunAt)
        previousRun := job.bind (·.previousRunAt)
        currentRun := job.bind (·.currentRunAt)
        isBusy := ((job.map Cron.isBusy).getD false)
        executions := executions.take 10
        stats :=
          { totalRuns := executions.length
            successfulRuns := successfulRuns
            failedRuns := failedRuns
            averageDuration := averageDuration } }

/-- `getAllJobs()`: map `getJob` over `configs.keys()` and drop `null`s. -/
def getAllJobs (m : CronManager) : List JobInfo :=
  (alKeys m.configs).filterMap (getJob m)

/-- `trigger(name)`: `false` when the jobs map has no runtime; otherwise
`job.trigger()` schedules an immediate fire of the execution wrapper
(modelled separately, as croner runs it asynchronously) and the method
returns `true`. -/
def trigger (m : CronManager) (name : String) : CronManager × Bool :=
  match alGet m.jobs name with
  | none => (m, false)
  | some _ => (m, true)

/-- `pause(name)`: `false` when the jobs map has no runtime; otherwise calls
`job.pause()` — whose return value is ignored — and returns `true`. -/
def pause (m : CronManager) (name : String) : CronManager × Bool :=
  match alGet m.jobs name with
  | none => (m, false)
  | some job =>
    ({ m with jobs := alSet m.jobs name (job.pauseJob).1 }, true)

/-- `resume(name)`: `false` when the jobs map has no runtime; otherwise
returns the result of `job.resume()`. -/
def resume (m : CronManager) (name : String) : CronManager × Bool :=
  match alGet m.jobs name with
  | none => (m, false)
  | some job =>
    let r := job.resumeJob
    ({ m with jobs := alSet m.jobs name r.1 }, r.2)

/-- `stop(name)`: `false` when the jobs map has no runtime; otherwise stops
the runtime, deletes it from the jobs map (configs and histories are NOT
touched), and returns `true`. -/
def stop (m : CronManager) (name : String) : CronManager × Bool :=
  match alGet m.jobs name with
  | none => (m, false)
  | some _ => ({ m with jobs := alDelete m.jobs name }, true)

/-- `getStats()`: job counts from `getAllJobs()`, execution counts from the
flattened `executions` map. -/
def getStats (m : CronManager) : ManagerStats :=
  let jobs := getAllJobs m
  let allExecutions := (m.executions.map (·.2)).flatten
  { totalJobs := jobs.length
    runningJobs := (jobs.filter (fun j =>
      j.status == JobStatus.running || j.status == JobStatus.idle)).length
    pausedJobs := (jobs.filter (fun j => j.status == JobStatus.paused)).length
    stoppedJobs := (jobs.filter (fun j => j.status == JobStatus.stopped)).length
    totalExecutions := allExecutions.length
    successfulExecutions := (allExecutions.filter (fun e => e.success)).length
    failedExecutions := (allExecutions.filter (fun e => !e.success)).length }

/-- `stopAll()`: stops every runtime and clears the jobs map; the stopped
`Cron` objects become unreachable, so the state change is exactly
`jobs := ∅`.  Configs and histories are NOT touched. -/
def stopAll (m : CronManager) : CronManager :=
  { m with jobs := [] }

/-- Observer: the retained execution history of a job
(`this.executions.get(jobName) || []`). -/
def jobHistory (m : CronManager) (name : String) : List JobExecution :=
  (alGet m.executions name).getD []

/-- The record that one run of the execution wrapper appends
(see `executionWrapper`). -/
def wrapperRecord (jobName : String) (startTime endTime : Nat)
    (outcome : HandlerOutcome) : JobExecution :=
  match outcome with
  | HandlerOutcome.ok =>
      { jobName, startTime, endTime := some endTime
        duration := some (endTime - startTime), success := true, error := none }
  | HandlerOutcome.failed msg =>
      { jobName, startTime, endTime := some endTime
        duration := some (endTime - startTime), success := false, error := some msg }

/-- A sequence of completed fires of one job's execution wrapper, each given
by its start time, end time, and handler outcome. -/
def runMany (m : CronManager) (name : String)
    (runs : List (Nat × Nat × HandlerOutcome)) : CronManager :=
  runs.foldl (fun acc r => executionWrapper acc name r.1 r.2.1 r.2.2) m

/-! ## Concrete fixtures used by counterexamples and witnesses -/

/-- A job config with default `enabled` (absent, i.e. enabled). -/
def cfgX : JobConfig :=
  { name := "x", description := "demo", pattern := "* * * * *"
    timezone := none, enabled := none }

/-- The same job registered with `enabled: false`. -/
def cfgXoff : JobConfig := { cfgX with enabled := some false }

/-- A fresh manager with the default history cap of 100. -/
def mEmpty : CronManager := CronManager.new 100

/-- The manager after registering `cfgX` (enabled). -/
def mX : CronManager :=
  match register mEmpty cfgX none with
  | Except.ok m => m
  | Except.error _ => mEmpty

/-- The manager after registering `cfgXoff` (`enabled: false`). -/
def mXoff : CronManager :=
  match register mEmpty cfgXoff none with
  | Except.ok m => m
  | Except.error _ => mEmpty

/-- A manager with history cap 3 holding job `"x"`. -/
def m3 : CronManager :=
  match register (CronManager.new 3) cfgX none with
  | Except.ok m => m
  | Except.error _ => CronManager.new 3

/-! ## Helper lemmas -/

theorem length_filter_add_length_filter_not (l : List α) (p : α → Bool) :
    (l.filter p).length + (l.filter (fun a => !p a)).length = l.length := by
  induction l with
  | nil => rfl
  | cons a t ih =>
    by_cases hp : p a = true
    · simp [List.filter_cons, hp]
      omega
    · simp [List.filter_cons, hp]
      omega

theorem stop_fst_configs (m : CronManager) (n : String) :
    (stop m n).1.configs = m.configs := by
  unfold stop
  cases alGet m.jobs n <;> rfl

theorem stop_fst_executions (m : CronManager) (n : String) :
    (stop m n).1.executions = m.executions := by
  unfold stop
  cases alGet m.jobs n <;> rfl

theorem alGet_stop_jobs (m : CronManager) (n : String) :
    alGet (stop m n).1.jobs n = none := by
  unfold stop
  cases hj : alGet m.jobs n with
  | none => simpa using hj
  | some j => simpa using alGet_alDelete_self m.jobs n

theorem getJob_eq_none_of_no_config (m : CronManager) (n : String)
    (h : alGet m.configs n = none) : getJob m n = none := by
  unfold getJob
  rw [h]

theorem getJob_isSome_of_config (m : CronManager) (n : String) (c : JobConfig)
    (h : alGet m.configs n = some c) : (getJob m n).isSome = true := by
  unfold getJob
  rw [h]
  rfl

theorem getJob_status (m : CronManager) (n : String) (info : JobInfo)
    (h : getJob m n = some info) :
    info.status = getJobStatus (alGet m.jobs n) := by
  unfold getJob at h
  cases hc : alGet m.configs n with
  | none => rw [hc] at h; exact absurd h (by simp)
  | some c =>
    rw [hc] at h
    simp only [Option.some.injEq] at h
    rw [← h]

theorem getJobStatus_none : getJobStatus none = JobStatus.stopped := rfl

theorem getJobStatus_new (next : Option Nat) :
    getJobStatus (some (Cron.new next)) = JobStatus.idle := rfl

theorem mem_alKeys_alGet_isSome (m : List (String × α)) (k : String)
    (h : k ∈ alKeys m) : (alGet m k).isSome = true := by
  unfold alKeys at h
  unfold alGet
  induction m with
  | nil => simp at h
  | cons p t ih =>
    rw [List.map_cons, List.mem_cons] at h
    cases hp : (p.1 == k)
    · rw [List.find?_cons_of_neg _ (by simp [hp])]
      cases h with
      | inl h1 => exact absurd (by simp [h1]) (by simp [hp] : ¬ (p.1 == k) = true)
      | inr h2 => exact ih h2
    · rw [List.find?_cons_of_pos _ (by simpa using hp)]
      rfl

theorem length_filterMap_of_isSome (l : List α) (f : α → Option β)
    (h : ∀ a ∈ l, (f a).isSome = true) :
    (l.filterMap f).length = l.length := by
  induction l with
  | nil => rfl
  | cons a t ih =>
    have ha : (f a).isSome = true := h a (by simp)
    obtain ⟨b, hb⟩ := Option.isSome_iff_exists.mp ha
    rw [List.filterMap_cons, hb, List.length_cons,
      ih (fun x hx => h x (by simp [hx]))]
    rfl

theorem take_append_take (a b : List α) (n : Nat) :
    (a ++ b.take n).take n = (a ++ b).take n := by
  rw [List.take_append_eq_append_take, List.take_append_eq_append_take,
    List.take_take]
  have hmin : min (n - a.length) n = n - a.length :=
    Nat.min_eq_left (Nat.sub_le n a.length)
  rw [hmin]

theorem jobHistory_recordExecution (m : CronManager) (now : Nat) (n : String)
    (success : Bool) (error : Option String)
    (startTime endTime duration : Option Nat) :
    jobHistory (recordExecution m now n success error startTime endTime duration) n =
      (({ jobName := n, startTime := startTime.getD now, endTime, duration,
          success, error } : JobExecution) :: jobHistory m n).take m.maxExecutionLogs := by
  unfold jobHistory recordExecution
  simp only [alGet_alSet_self]
  split
  · rfl
  · rename_i hlen
    rw [Option.getD_some, List.take_of_length_le (by omega)]

theorem jobHistory_executionWrapper (m : CronManager) (n : String)
    (s e : Nat) (o : HandlerOutcome) :
    jobHistory (executionWrapper m n s e o) n =
      (wrapperRecord n s e o :: jobHistory m n).take m.maxExecutionLogs := by
  cases o with
  | ok => exact jobHistory_recordExecution m s n true none (some s) (some e) (some (e - s))
  | failed msg =>
      exact jobHistory_recordExecution m s n false (some msg) (some s) (some e) (some (e - s))

theorem maxLogs_executionWrapper (m : CronManager) (n : String)
    (s e : Nat) (o : HandlerOutcome) :
    (executionWrapper m n s e o).maxExecutionLogs = m.maxExecutionLogs := by
  cases o <;> rfl

theorem jobHistory_runMany (m : CronManager) (n : String)
    (runs : List (Nat × Nat × HandlerOutcome))
    (hlen : (jobHistory m n).length ≤ m.maxExecutionLogs) :
    jobHistory (runMany m n runs) n =
      ((runs.map (fun r => wrapperRecord n r.1 r.2.1 r.2.2)).reverse
        ++ jobHistory m n).take m.maxExecutionLogs ∧
    (runMany m n runs).maxExecutionLogs = m.maxExecutionLogs := by
  induction runs generalizing m with
  | nil =>
    refine ⟨?_, rfl⟩
    simp only [List.map_nil, List.reverse_nil, List.nil_append]
    rw [List.take_of_length_le hlen]
    rfl
  | cons r rs ih =>
    have hmax := maxLogs_executionWrapper m n r.1 r.2.1 r.2.2
    have hlen' : (jobHistory (executionWrapper m n r.1 r.2.1 r.2.2) n).length
        ≤ (executionWrapper m n r.1 r.2.1 r.2.2).maxExecutionLogs := by
      rw [jobHistory_executionWrapper, hmax, List.length_take]
      exact Nat.min_le_left _ _
    have hstep := ih (executionWrapper m n r.1 r.2.1 r.2.2) hlen'
    constructor
    · show jobHistory (runMany (executionWrapper m n r.1 r.2.1 r.2.2) n rs) n = _
      rw [hstep.1, jobHistory_executionWrapper, hmax, take_append_take,
        List.map_cons, List.reverse_cons, List.append_assoc]
      rfl
    · show (runMany (executionWrapper m n r.1 r.2.1 r.2.2) n rs).maxExecutionLogs = _
      rw [hstep.2, hmax]

theorem getJob_map_status (m : CronManager) (n : String) (c : JobConfig)
    (h : alGet m.configs n = some c) :
    (getJob m n).map (fun i => i.status) = some (getJobStatus (alGet m.jobs n)) := by
  unfold getJob
  rw [h]
  rfl

/-! ## Claims -/

/-- C1 (counterexample): on the concrete manager holding the enabled job
`"x"`, `stop("x")` succeeds, yet a subsequent `getJob("x")` does NOT return
the not-found result: `configs` is never cleaned up, so a snapshot is still
returned (with status stopped).  This falsifies the claim that `stop`
always yields a registry returning not-found for the name. -/
theorem stop_then_getJob_not_null_cex :
    (stop mX "x").2 = true ∧ (getJob (stop mX "x").1 "x").isSome = true :=
  ⟨rfl, rfl⟩

/-- C1 (amended): for every manager state and every name with a registered
config, after `stop(n)` the runtime is removed from the jobs map, and a
subsequent `getJob(n)` returns a snapshot whose status is `stopped` —
not the not-found result `null`. -/
theorem stop_then_getJob_reports_stopped (m : CronManager) (n : String)
    (c : JobConfig) (h : alGet m.configs n = some c) :
    (getJob (stop m n).1 n).map (fun i => i.status) = some JobStatus.stopped ∧
    alGet (stop m n).1.jobs n = none := by
  have hconf : alGet (stop m n).1.configs n = some c := by
    rw [stop_fst_configs]
    exact h
  have hjobs := alGet_stop_jobs m n
  refine ⟨?_, hjobs⟩
  rw [getJob_map_status (stop m n).1 n c hconf, hjobs]
  rfl

/-- C1 witness: the amended statement evaluated on the concrete manager
holding the enabled job `"x"`. -/
theorem stop_then_getJob_reports_stopped_witness :
    (getJob (stop mX "x").1 "x").map (fun i => i.status) = some JobStatus.stopped ∧
    alGet (stop mX "x").1.jobs "x" = none :=
  stop_then_getJob_reports_stopped mX "x" cfgX (by rfl)

/-- C2 (counterexample): `"x"` is registered (with `enabled: false`, so no
runtime exists) and `getJob` finds it, yet a second `register` under the
same name does not fail: the duplicate check consults the jobs map, not the
configs map.  This falsifies the claim that registering an already
registered name always raises `DuplicateJobError`. -/
theorem register_duplicate_not_rejected_cex :
    (getJob mXoff "x").isSome = true ∧
    (register mXoff cfgX none).toOption.isSome = true :=
  ⟨rfl, rfl⟩

/-- C2 (amended): `register(c)` fails with the duplicate error exactly when
the jobs map holds a runtime under `c.name`; the check precedes every
mutation, so a failing `register` leaves the manager unchanged.  When no
runtime exists under the name — including a name registered with
`enabled: false` or stopped earlier — registration succeeds (overwriting
any retained config and history). -/
theorem register_duplicate_runtime_guard (m : CronManager) (c : JobConfig)
    (next : Option Nat) :
    (alHas m.jobs c.name = true →
      register m c next =
        Except.error ("Job with name " ++ c.name ++ " already exists")) ∧
    (alHas m.jobs c.name = false → (register m c next).toOption.isSome = true) := by
  constructor
  · intro h
    unfold register
    rw [if_pos h]
  · intro h
    unfold register
    rw [if_neg (by simp [h])]
    split <;> rfl

/-- C2 witness: the duplicate guard evaluated concretely: registering
`"x"` twice with a live runtime fails with the duplicate error, and
registering into an empty manager succeeds. -/
theorem register_duplicate_runtime_guard_witness :
    register mX cfgX none =
      Except.error ("Job with name " ++ "x" ++ " already exists") ∧
    (register mEmpty cfgX none).toOption.isSome = true :=
  ⟨(register_duplicate_runtime_guard mX cfgX none).1 (by rfl),
   (register_duplicate_runtime_guard mEmpty cfgX none).2 (by rfl)⟩

/-- C3: the retained history never exceeds the configured cap: recording a
sequence of `k` executions with `k` greater than the cap, starting from an
empty history, leaves exactly `cap` records — the `cap` most recent ones in
most-recent-first order (the reverse of the chronological sequence,
truncated to `cap`), the oldest being evicted on each overflow. -/
theorem history_cap_bound (m : CronManager) (name : String)
    (runs : List (Nat × Nat × HandlerOutcome))
    (h0 : jobHistory m name = [])
    (hk : runs.length > m.maxExecutionLogs) :
    jobHistory (runMany m name runs) name =
      ((runs.map (fun r => wrapperRecord name r.1 r.2.1 r.2.2)).reverse).take
        m.maxExecutionLogs ∧
    (jobHistory (runMany m name runs) name).length = m.maxExecutionLogs := by
  have h := jobHistory_runMany m name runs (by rw [h0]; exact Nat.zero_le _)
  constructor
  · rw [h.1, h0, List.append_nil]
  · rw [h.1, h0, List.append_nil, List.length_take, List.length_reverse,
      List.length_map]
    omega

/-- Five completed runs of job `"x"`, in chronological order. -/
def runs5 : List (Nat × Nat × HandlerOutcome) :=
  [(10, 11, HandlerOutcome.ok), (20, 21, HandlerOutcome.ok),
   (30, 31, HandlerOutcome.failed "boom"), (40, 41, HandlerOutcome.ok),
   (50, 51, HandlerOutcome.ok)]

/-- C3 witness: with cap 3 and 5 recorded executions, exactly the 3 most
recent records remain, most-recent-first. -/
theorem history_cap_bound_witness :
    jobHistory (runMany m3 "x" runs5) "x" =
      ((runs5.map (fun r => wrapperRecord "x" r.1 r.2.1 r.2.2)).reverse).take 3 ∧
    (jobHistory (runMany m3 "x" runs5) "x").length = 3 :=
  history_cap_bound m3 "x" runs5 (by rfl) (by decide)

theorem register_ok_shape (m : CronManager) (c : JobConfig) (next : Option Nat)
    (m' : CronManager) (h : register m c next = Except.ok m') :
    alHas m.jobs c.name = false ∧
    m'.configs = alSet m.configs c.name c ∧
    m'.executions = alSet m.executions c.name [] ∧
    m'.jobs = (if c.enabled != some false then alSet m.jobs c.name (Cron.new next)
               else m.jobs) := by
  unfold register at h
  by_cases hdup : alHas m.jobs c.name = true
  · rw [if_pos hdup] at h
    exact absurd h (by simp)
  · have hdup' : alHas m.jobs c.name = false := by simpa using hdup
    rw [if_neg (by simp [hdup'])] at h
    refine ⟨hdup', ?_⟩
    split at h
    · rename_i he
      injection h with h2
      subst h2
      refine ⟨rfl, rfl, ?_⟩
      rw [if_pos he]
      rfl
    · rename_i he
      injection h with h2
      subst h2
      refine ⟨rfl, rfl, ?_⟩
      rw [if_neg he]

/-- C4 (counterexample): on the concrete manager where `"x"` was registered
with `enabled: false`, the reported status is `stopped`, not `paused` as
the claim states: `getJobStatus` maps a missing runtime to `"stopped"`. -/
theorem register_disabled_reports_stopped_cex :
    (getJob mXoff "x").map (fun i => i.status) = some JobStatus.stopped ∧
    (getJob mXoff "x").map (fun i => i.status) ≠ some JobStatus.paused :=
  ⟨rfl, by decide⟩

/-- C4 (amended): immediately after a successful `register(c)` the job is
found by `getJob`, and its reported state is `idle` when `c` is enabled
(`enabled` omitted or `true`) and `stopped` — not `paused` — when `c` was
registered with `enabled: false`, while the definition is still retained;
`stopped` is likewise what an explicitly stopped job reports. -/
theorem register_initial_status (m : CronManager) (c : JobConfig)
    (m' : CronManager) (next : Option Nat)
    (h : register m c next = Except.ok m') :
    (getJob m' c.name).isSome = true ∧
    (getJob m' c.name).map (fun i => i.status) =
      some (if c.enabled != some false then JobStatus.idle
            else JobStatus.stopped) := by
  obtain ⟨hdup, hconfigs, hexecs, hjobs⟩ := register_ok_shape m c next m' h
  have hc : alGet m'.configs c.name = some c := by
    rw [hconfigs]
    exact alGet_alSet_self _ _ _
  refine ⟨getJob_isSome_of_config m' c.name c hc, ?_⟩
  rw [getJob_map_status m' c.name c hc]
  cases he : (c.enabled != some false)
  · rw [if_neg (by simp [he])] at hjobs
    rw [hjobs, alGet_of_alHas_eq_false m.jobs c.name hdup, if_neg (by simp [he])]
    rfl
  · rw [if_pos he] at hjobs
    rw [hjobs, alGet_alSet_self]
    rfl

/-- C4 witness: the amended statement evaluated at the disabled concrete
registration (status `stopped`). -/
theorem register_initial_status_witness :
    (getJob mXoff cfgXoff.name).isSome = true ∧
    (getJob mXoff cfgXoff.name).map (fun i => i.status) =
      some (if cfgXoff.enabled != some false then JobStatus.idle
            else JobStatus.stopped) :=
  register_initial_status mEmpty cfgXoff mXoff none (by rfl)

/-- C5 (counterexample): on the concrete manager holding job `"x"`,
`stopAll()` does not clear the registry: `getAllJobs()` still returns one
snapshot and `getStats()` reports one total job, falsifying the claim that
the registry becomes empty with zero total jobs. -/
theorem stopAll_registry_not_empty_cex :
    (getAllJobs (stopAll mX)).length = 1 ∧
    (getStats (stopAll mX)).totalJobs = 1 :=
  ⟨rfl, rfl⟩

/-- C5 (amended): `stopAll()` stops and discards every runtime (it clears
only the jobs map); configs and histories are retained, so afterwards
`getAllJobs()` returns one snapshot per registered config, each with status
`stopped`, and `getStats()` reports them all as stopped jobs with zero
running and zero paused. -/
theorem stopAll_keeps_registry_all_stopped (m : CronManager) :
    (∀ info ∈ getAllJobs (stopAll m), info.status = JobStatus.stopped) ∧
    (getAllJobs (stopAll m)).length = m.configs.length ∧
    (getStats (stopAll m)).totalJobs = m.configs.length ∧
    (getStats (stopAll m)).stoppedJobs = m.configs.length ∧
    (getStats (stopAll m)).runningJobs = 0 ∧
    (getStats (stopAll m)).pausedJobs = 0 := by
  have hstatus : ∀ info ∈ getAllJobs (stopAll m), info.status = JobStatus.stopped := by
    intro info hmem
    unfold getAllJobs at hmem
    obtain ⟨k, hk, hget⟩ := List.mem_filterMap.mp hmem
    rw [getJob_status (stopAll m) k info hget]
    rfl
  have hlen : (getAllJobs (stopAll m)).length = m.configs.length := by
    unfold getAllJobs
    rw [length_filterMap_of_isSome]
    · show (alKeys m.configs).length = m.configs.length
      unfold alKeys
      rw [List.length_map]
    · intro k hk
      obtain ⟨c, hc⟩ :=
        Option.isSome_iff_exists.mp (mem_alKeys_alGet_isSome (stopAll m).configs k hk)
      exact getJob_isSome_of_config (stopAll m) k c hc
  have hstopped : ((getAllJobs (stopAll m)).filter
      (fun j => j.status == JobStatus.stopped)) = getAllJobs (stopAll m) :=
    List.filter_eq_self.mpr (fun j hj => by rw [hstatus j hj]; rfl)
  have hrun : ((getAllJobs (stopAll m)).filter
      (fun j => j.status == JobStatus.running || j.status == JobStatus.idle)) = [] := by
    rw [List.filter_eq_nil_iff]
    intro j hj
    rw [hstatus j hj]
    decide
  have hpaused : ((getAllJobs (stopAll m)).filter
      (fun j => j.status == JobStatus.paused)) = [] := by
    rw [List.filter_eq_nil_iff]
    intro j hj
    rw [hstatus j hj]
    decide
  refine ⟨hstatus, hlen, hlen, ?_, ?_, ?_⟩
  · show ((getAllJobs (stopAll m)).filter
      (fun j => j.status == JobStatus.stopped)).length = m.configs.length
    rw [hstopped]
    exact hlen
  · show ((getAllJobs (stopAll m)).filter
      (fun j => j.status == JobStatus.running || j.status == JobStatus.idle)).length = 0
    rw [hrun]
    rfl
  · show ((getAllJobs (stopAll m)).filter
      (fun j => j.status == JobStatus.paused)).length = 0
    rw [hpaused]
    rfl

/-- C5 witness: the amended statement evaluated on the concrete manager
holding the single job `"x"`. -/
theorem stopAll_keeps_registry_all_stopped_witness :
    (getAllJobs (stopAll mX)).length = 1 ∧
    (getStats (stopAll mX)).stoppedJobs = 1 ∧
    (getStats (stopAll mX)).runningJobs = 0 := by
  have h := stopAll_keeps_registry_all_stopped mX
  exact ⟨h.2.1.trans (by rfl), h.2.2.2.1.trans (by rfl), h.2.2.2.2.1⟩

/-- C6: the four control operations return a boolean success flag and never
raise (they are total); each returns `false` when the name has no runtime
in the registry, and `resume` returns `false` when the job is not paused
(the inapplicable transition), `true` when it is paused and not stopped.
`trigger`, `pause` and `stop` report `true` whenever a runtime exists. -/
theorem control_ops_return_bool (m : CronManager) (n : String) :
    (alGet m.jobs n = none →
      (trigger m n).2 = false ∧ (pause m n).2 = false ∧
      (resume m n).2 = false ∧ (stop m n).2 = false) ∧
    (∀ j, alGet m.jobs n = some j → j.pausedFlag = false →
      (resume m n).2 = false) ∧
    (∀ j, alGet m.jobs n = some j → j.pausedFlag = true → j.stoppedFlag = false →
      (resume m n).2 = true) ∧
    (∀ j, alGet m.jobs n = some j →
      (trigger m n).2 = true ∧ (pause m n).2 = true ∧ (stop m n).2 = true) := by
  refine ⟨?_, ?_, ?_, ?_⟩
  · intro h
    unfold trigger pause resume stop
    rw [h]
    exact ⟨rfl, rfl, rfl, rfl⟩
  · intro j hj hp
    unfold resume
    rw [hj]
    show (j.resumeJob).2 = false
    unfold Cron.resumeJob
    rw [hp]
    rfl
  · intro j hj hp hs
    unfold resume
    rw [hj]
    show (j.resumeJob).2 = true
    unfold Cron.resumeJob
    rw [hp, hs]
    rfl
  · intro j hj
    unfold trigger pause stop
    rw [hj]
    exact ⟨rfl, rfl, rfl⟩

/-- C6 witness: evaluated concretely: an unknown name reports `false`, a
non-paused job rejects `resume` with `false`, and `trigger` on a live
runtime reports `true`. -/
theorem control_ops_return_bool_witness :
    (trigger mEmpty "nope").2 = false ∧ (resume mX "x").2 = false ∧
    (trigger mX "x").2 = true := by
  have h0 := control_ops_return_bool mEmpty "nope"
  have h1 := control_ops_return_bool mX "x"
  refine ⟨(h0.1 (by rfl)).1, ?_, ?_⟩
  · exact h1.2.1 (Cron.new none) (by rfl) (by rfl)
  · exact (h1.2.2.2 (Cron.new none) (by rfl)).1

/-- C7: `getJob` returns the not-found result for a name with no config;
for a registered name the snapshot's `executions` field is the 10 most
recent records (a `slice(0, 10)` of the most-recent-first history, hence at
most 10), while every stats field — total, successful, failed runs and the
mean duration — is computed over the whole retained history. -/
theorem getJob_window_and_full_stats (m : CronManager) (n : String) :
    (alGet m.configs n = none → getJob m n = none) ∧
    (∀ info, getJob m n = some info →
      info.executions = (jobHistory m n).take 10 ∧
      info.executions.length ≤ 10 ∧
      info.stats.totalRuns = (jobHistory m n).length ∧
      info.stats.successfulRuns =
        ((jobHistory m n).filter (fun e => e.success)).length ∧
      info.stats.failedRuns =
        ((jobHistory m n).filter (fun e => !e.success)).length ∧
      info.stats.averageDuration =
        (if (jobHistory m n).length > 0 then
          jsRoundDiv ((jobHistory m n).map (fun e => e.duration.getD 0)).sum
            (jobHistory m n).length
         else 0)) := by
  constructor
  · exact getJob_eq_none_of_no_config m n
  · intro info hinfo
    unfold getJob at hinfo
    cases hc : alGet m.configs n with
    | none =>
      rw [hc] at hinfo
      exact absurd hinfo (by simp)
    | some c =>
      rw [hc] at hinfo
      simp only [Option.some.injEq] at hinfo
      subst hinfo
      refine ⟨rfl, ?_, rfl, rfl, rfl, rfl⟩
      show ((jobHistory m n).take 10).length ≤ 10
      rw [List.length_take]
      exact Nat.min_le_left _ _

/-- C7 witness: evaluated concretely: an unregistered name yields the
not-found result, and the snapshot of `"x"` carries the 10-record window. -/
theorem getJob_window_and_full_stats_witness :
    getJob mEmpty "ghost" = none ∧
    (getJob mX "x").map (fun i => i.executions) =
      some ((jobHistory mX "x").take 10) := by
  have h0 := (getJob_window_and_full_stats mEmpty "ghost").1 (by rfl)
  have h1 := getJob_window_and_full_stats mX "x"
  refine ⟨h0, ?_⟩
  obtain ⟨info, hinfo⟩ : ∃ info, getJob mX "x" = some info := ⟨_, rfl⟩
  have h2 := (h1.2 info hinfo).1
  rw [hinfo]
  show some info.executions = some ((jobHistory mX "x").take 10)
  rw [h2]

/-- C8 (counterexample): at run start the code creates NO pending record:
on the concrete manager the history is empty until the wrapper completes,
at which point it holds exactly one record, already finalized (non-null end
time and duration).  A state containing a pending record (end time and
duration null) never exists, falsifying the create-pending-then-finalize
claim. -/
theorem no_pending_record_at_start_cex :
    jobHistory mX "x" = [] ∧
    jobHistory (executionWrapper mX "x" 2 5 HandlerOutcome.ok) "x" =
      [{ jobName := "x", startTime := 2, endTime := some 5, duration := some 3,
         success := true, error := none }] :=
  ⟨rfl, rfl⟩

/-- C8 (amended): the execution wrapper records exactly once per fire, at
run completion: the history gains a single new head record that is already
finalized — its start time is the one captured at run start, its end time
and duration are non-null — with the success flag matching the handler
outcome, and the error message present exactly on failure records.  No
pending record is created at run start. -/
theorem wrapper_records_once_finalized (m : CronManager) (name : String)
    (s e : Nat) (o : HandlerOutcome) (hcap : 1 ≤ m.maxExecutionLogs) :
    jobHistory (executionWrapper m name s e o) name =
      wrapperRecord name s e o ::
        (jobHistory m name).take (m.maxExecutionLogs - 1) ∧
    (wrapperRecord name s e o).startTime = s ∧
    (wrapperRecord name s e o).endTime = some e ∧
    (wrapperRecord name s e o).duration = some (e - s) ∧
    ((wrapperRecord name s e o).success = true ↔ o = HandlerOutcome.ok) ∧
    ((wrapperRecord name s e o).error = none ↔ o = HandlerOutcome.ok) := by
  refine ⟨?_, ?_, ?_, ?_, ?_, ?_⟩
  · rw [jobHistory_executionWrapper]
    obtain ⟨k, hk⟩ : ∃ k, m.maxExecutionLogs = k + 1 :=
      ⟨m.maxExecutionLogs - 1, by omega⟩
    rw [hk, List.take_succ_cons, Nat.add_sub_cancel]
  · cases o <;> rfl
  · cases o <;> rfl
  · cases o <;> rfl
  · cases o <;> simp [wrapperRecord]
  · cases o <;> simp [wrapperRecord]

/-- C8 witness: the amended statement evaluated at a concrete failing run
on the manager holding job `"x"`. -/
theorem wrapper_records_once_finalized_witness :
    jobHistory (executionWrapper mX "x" 2 5 (HandlerOutcome.failed "boom")) "x" =
      wrapperRecord "x" 2 5 (HandlerOutcome.failed "boom") ::
        (jobHistory mX "x").take (mX.maxExecutionLogs - 1) ∧
    (wrapperRecord "x" 2 5 (HandlerOutcome.failed "boom")).startTime = 2 ∧
    (wrapperRecord "x" 2 5 (HandlerOutcome.failed "boom")).endTime = some 5 ∧
    (wrapperRecord "x" 2 5 (HandlerOutcome.failed "boom")).duration = some (5 - 2) ∧
    ((wrapperRecord "x" 2 5 (HandlerOutcome.failed "boom")).success = true ↔
      HandlerOutcome.failed "boom" = HandlerOutcome.ok) ∧
    ((wrapperRecord "x" 2 5 (HandlerOutcome.failed "boom")).error = none ↔
      HandlerOutcome.failed "boom" = HandlerOutcome.ok) :=
  wrapper_records_once_finalized mX "x" 2 5 (HandlerOutcome.failed "boom") (by decide)

/-- C9: the reported statistics are internally consistent: in every manager
state, each job snapshot satisfies totalRuns = successfulRuns + failedRuns,
and the manager-wide stats satisfy totalExecutions = successfulExecutions +
failedExecutions. -/
theorem stats_internally_consistent (m : CronManager) :
    (∀ n info, getJob m n = some info →
      info.stats.totalRuns = info.stats.successfulRuns + info.stats.failedRuns) ∧
    (getStats m).totalExecutions =
      (getStats m).successfulExecutions + (getStats m).failedExecutions := by
  constructor
  · intro n info hinfo
    unfold getJob at hinfo
    cases hc : alGet m.configs n with
    | none =>
      rw [hc] at hinfo
      exact absurd hinfo (by simp)
    | some c =>
      rw [hc] at hinfo
      simp only [Option.some.injEq] at hinfo
      subst hinfo
      show ((alGet m.executions n).getD []).length =
        (((alGet m.executions n).getD []).filter (fun e => e.success)).length +
        (((alGet m.executions n).getD []).filter (fun e => !e.success)).length
      exact (length_filter_add_length_filter_not _ _).symm
  · show ((m.executions.map (·.2)).flatten).length =
      (((m.executions.map (·.2)).flatten).filter (fun e => e.success)).length +
      (((m.executions.map (·.2)).flatten).filter (fun e => !e.success)).length
    exact (length_filter_add_length_filter_not _ _).symm

/-- C9 witness: the consistency equations evaluated on the concrete manager
holding job `"x"` (whose snapshot exists by `rfl`). -/
theorem stats_internally_consistent_witness :
    (getStats mX).totalExecutions =
      (getStats mX).successfulExecutions + (getStats mX).failedExecutions ∧
    ((getJob mX "x").map (fun i => i.stats.totalRuns) =
      (getJob mX "x").map (fun i => i.stats.successfulRuns + i.stats.failedRuns)) := by
  have h := stats_internally_consistent mX
  refine ⟨h.2, ?_⟩
  obtain ⟨info, hinfo⟩ : ∃ info, getJob mX "x" = some info := ⟨_, rfl⟩
  rw [hinfo]
  show some info.stats.totalRuns =
    some (info.stats.successfulRuns + info.stats.failedRuns)
  rw [h.1 "x" info hinfo]

/-- C10: a job registered with enabled=false gets no runtime, and then
trigger, pause and resume all return false while getJob still returns its
information; the same holds after an explicit stop, which removes the
runtime but leaves the config (and hence getJob) intact. -/
theorem no_runtime_control_ops_false (m : CronManager) (c : JobConfig)
    (m' : CronManager) (next : Option Nat) (n : String) :
    (register m c next = Except.ok m' → c.enabled = some false →
      alGet m'.jobs c.name = none ∧ (getJob m' c.name).isSome = true ∧
      (trigger m' c.name).2 = false ∧ (pause m' c.name).2 = false ∧
      (resume m' c.name).2 = false) ∧
    (alGet (stop m n).1.jobs n = none) ∧
    ((alGet m.configs n).isSome = true → (getJob (stop m n).1 n).isSome = true) ∧
    (alGet m.jobs n = none →
      (trigger m n).2 = false ∧ (pause m n).2 = false ∧ (resume m n).2 = false) := by
  have ops : ∀ (m2 : CronManager) (k : String), alGet m2.jobs k = none →
      (trigger m2 k).2 = false ∧ (pause m2 k).2 = false ∧
      (resume m2 k).2 = false := by
    intro m2 k h
    unfold trigger pause resume
    rw [h]
    exact ⟨rfl, rfl, rfl⟩
  refine ⟨?_, alGet_stop_jobs m n, ?_, ops m n⟩
  · intro hreg hdis
    obtain ⟨hdup, hconfigs, hexecs, hjobs⟩ := register_ok_shape m c next m' hreg
    have hnone : alGet m'.jobs c.name = none := by
      rw [hjobs, if_neg (by simp [hdis])]
      exact alGet_of_alHas_eq_false m.jobs c.name hdup
    have hc : alGet m'.configs c.name = some c := by
      rw [hconfigs]
      exact alGet_alSet_self _ _ _
    exact ⟨hnone, getJob_isSome_of_config m' c.name c hc, ops m' c.name hnone⟩
  · intro h
    obtain ⟨c2, hc2⟩ := Option.isSome_iff_exists.mp h
    exact getJob_isSome_of_config (stop m n).1 n c2
      (by rw [stop_fst_configs]; exact hc2)

/-- C10 witness: evaluated concretely: the disabled registration of `"x"`
has no runtime, is still visible to getJob, and rejects trigger, pause and
resume with false; the same trigger rejection holds after stopping the
enabled `"x"`. -/
theorem no_runtime_control_ops_false_witness :
    alGet mXoff.jobs "x" = none ∧ (getJob mXoff "x").isSome = true ∧
    (trigger mXoff "x").2 = false ∧ (pause mXoff "x").2 = false ∧
    (resume mXoff "x").2 = false ∧
    (trigger (stop mX "x").1 "x").2 = false := by
  have h1 := (no_runtime_control_ops_false mEmpty cfgXoff mXoff none "x").1
    (by rfl) (by rfl)
  have h2 := no_runtime_control_ops_false mX cfgX mX none "x"
  have h3 := no_runtime_control_ops_false (stop mX "x").1 cfgX mX none "x"
  exact ⟨h1.1, h1.2.1, h1.2.2.1, h1.2.2.2.1, h1.2.2.2.2,
    (h3.2.2.2 h2.2.1).1⟩

end CronMgr
